import Mathlib

/-!
Shallow embedding of the Vision Transformer notebook (src/scratch_ViT.ipynb).

Tensors are modelled as nested lists of real numbers; the floating-point
arithmetic of the original program is idealised as real arithmetic.  The
library operations the notebook calls (nn.Conv2d, nn.Linear, torch.softmax,
nn.LayerNorm, nn.GELU, broadcasting addition) are embedded by their
documented mathematical semantics.  Operations that raise runtime shape
errors in the library (the strided convolution on an undersized or
wrongly-channelled input, the broadcast addition of the positional table)
return Option values, with none modelling the raised error; construction-time
assert statements are modelled the same way on the constructor.
-/

set_option maxHeartbeats 1000000

namespace ViT

/-- Vectors, matrices and higher tensors as nested lists of reals. -/
abbrev Vec := List ℝ

abbrev Mat := List (List ℝ)

abbrev Ten3 := List (List (List ℝ))

abbrev Ten4 := List (List (List (List ℝ)))

/-- Build the list [f 0, f 1, ..., f (n-1)]. -/
def tabulate {α : Type} (n : ℕ) (f : ℕ → α) : List α := (List.range n).map f

/-- Shape predicate for a matrix: r rows, each of length c. -/
def matShape (m : Mat) (r c : ℕ) : Prop := m.length = r ∧ ∀ row ∈ m, row.length = c

/-- Shape predicate for a rank-3 tensor. -/
def ten3Shape (x : Ten3) (b s d : ℕ) : Prop := x.length = b ∧ ∀ it ∈ x, matShape it s d

/-- Shape predicate for a rank-4 tensor (batch, channels, height, width). -/
def ten4Shape (x : Ten4) (b c h w : ℕ) : Prop :=
  x.length = b ∧ ∀ img ∈ x, img.length = c ∧ ∀ ch ∈ img, matShape ch h w

/-- Dot product of two vectors. -/
def dot (v w : Vec) : ℝ := (List.zipWith (· * ·) v w).sum

/-- Column j of a matrix. -/
def col (m : Mat) (j : ℕ) : Vec := m.map (fun row => row.getD j 0)

/-- Number of columns of a matrix, read from its first row. -/
def numCols (m : Mat) : ℕ := (m.getD 0 []).length

/-- Matrix transpose. -/
def transposeM (m : Mat) : Mat := tabulate (numCols m) (fun j => col m j)

/-- Matrix product (torch `@` on the last two axes). -/
def matmul (a b : Mat) : Mat :=
  a.map (fun row => tabulate (numCols b) (fun j => dot row (col b j)))

/-- Elementwise addition of two vectors. -/
def vecAdd (v w : Vec) : Vec := List.zipWith (· + ·) v w

/-- Elementwise addition of two matrices. -/
def matAdd (a b : Mat) : Mat := List.zipWith vecAdd a b

/-- Row-wise softmax value: semantics of torch.softmax along the last axis
(the max-shift used for float stability cancels exactly over the reals). -/
noncomputable def softmaxV (v : Vec) : Vec :=
  v.map (fun a => Real.exp a / (v.map Real.exp).sum)

/-- Weights and bias of nn.Linear: y = W x + b with W of shape (outF, inF). -/
structure LinearParams where
  weight : Mat
  bias : Vec

/-- Application of nn.Linear to one feature vector. -/
def LinearParams.apply (p : LinearParams) (x : Vec) : Vec :=
  List.zipWith (fun row b => dot row x + b) p.weight p.bias

/-- Well-formedness of nn.Linear parameters for given feature counts. -/
def LinearParams.wf (p : LinearParams) (outF inF : ℕ) : Prop :=
  matShape p.weight outF inF ∧ p.bias.length = outF

/-- Gauss error function, used by the exact (non-approximate) nn.GELU. -/
noncomputable def erf (x : ℝ) : ℝ :=
  2 / Real.sqrt Real.pi * ∫ t in (0:ℝ)..x, Real.exp (-(t ^ 2))

/-- Exact GELU activation: x * Φ(x) with Φ the standard normal CDF. -/
noncomputable def gelu (x : ℝ) : ℝ := x * (1 + erf (x / Real.sqrt 2)) / 2

/-- Semantics of nn.LayerNorm over the last axis with learned affine
parameters gamma and beta and the default eps = 1e-5. -/
noncomputable def layerNormV (gamma beta x : Vec) : Vec :=
  let mu := x.sum / (x.length : ℝ)
  let var := (x.map (fun a => (a - mu) ^ 2)).sum / (x.length : ℝ)
  List.zipWith (fun a gb => (a - mu) / Real.sqrt (var + 1 / 100000) * gb.1 + gb.2)
    x (gamma.zip beta)

/-! ### Patch Embedding (notebook class PatchEmbedding) -/

/-- PatchEmbedding module state: configuration plus the nn.Conv2d kernel
(shape (model_dim, num_channels, ph, pw)) and bias (length model_dim). -/
structure PatchEmbedding where
  model_dim : ℕ
  img_size : ℕ × ℕ
  patch_size : ℕ × ℕ
  num_channels : ℕ
  weight : Ten4
  bias : Vec

/-- One output entry of the strided convolution nn.Conv2d with kernel size
and stride both equal to patch_size: output channel d at grid cell (r, c). -/
def conv2dEntry (p : PatchEmbedding) (img : Ten3) (d r c : ℕ) : ℝ :=
  p.bias.getD d 0 +
    (tabulate p.num_channels (fun ch =>
      (tabulate p.patch_size.1 (fun i =>
        (tabulate p.patch_size.2 (fun j =>
          (((p.weight.getD d []).getD ch []).getD i []).getD j 0 *
            ((img.getD ch []).getD (r * p.patch_size.1 + i) []).getD
              (c * p.patch_size.2 + j) 0)).sum)).sum)).sum

/-- The convolution applied to one image: a (model_dim, hout, wout) tensor,
where hout and wout follow the conv2d output-size formula. -/
def PatchEmbedding.convItem (p : PatchEmbedding) (img : Ten3) : Ten3 :=
  let hIn := (img.getD 0 []).length
  let wIn := ((img.getD 0 []).getD 0 []).length
  let hout := (hIn - p.patch_size.1) / p.patch_size.1 + 1
  let wout := (wIn - p.patch_size.2) / p.patch_size.2 + 1
  tabulate p.model_dim (fun d =>
    tabulate hout (fun r => tabulate wout (fun c => conv2dEntry p img d r c)))

/-- x.flatten(2): merge the two spatial axes row-major. -/
def flatten2 (x : Ten3) : Mat := x.map List.flatten

/-- PatchEmbedding.forward: linear_project then flatten(2) then
transpose(1,2), per batch item.  none models the RuntimeError nn.Conv2d
raises when the channel count disagrees with the configured in_channels or
a spatial dimension is smaller than the kernel. -/
def PatchEmbedding.forward (p : PatchEmbedding) (x : Ten4) : Option Ten3 :=
  let cIn := (x.getD 0 []).length
  let hIn := ((x.getD 0 []).getD 0 []).length
  let wIn := (((x.getD 0 []).getD 0 []).getD 0 []).length
  if cIn = p.num_channels ∧ p.patch_size.1 ≤ hIn ∧ p.patch_size.2 ≤ wIn then
    some (x.map (fun img => transposeM (flatten2 (p.convItem img))))
  else none

/-! ### Class token and positional encoding (notebook class PositionalEncoding) -/

/-- The sinusoidal positional table built by the PositionalEncoding
constructor: entry (pos, i) is sin(pos / 10000 ^ (i / model_dim)) for even i
and cos(pos / 10000 ^ ((i - 1) / model_dim)) for odd i. -/
noncomputable def peTable (max_seq_length model_dim : ℕ) : Mat :=
  tabulate max_seq_length (fun pos =>
    tabulate model_dim (fun i =>
      if i % 2 = 0 then
        Real.sin ((pos : ℝ) / (10000 : ℝ) ^ ((i : ℝ) / (model_dim : ℝ)))
      else
        Real.cos ((pos : ℝ) / (10000 : ℝ) ^ (((i - 1 : ℕ) : ℝ) / (model_dim : ℝ)))))

/-- PositionalEncoding module state: the learned classification token
(length model_dim) and the registered buffer pe. -/
structure PositionalEncoding where
  cls_token : Vec
  pe : Mat

/-- PositionalEncoding constructor: random cls_token, computed pe table. -/
noncomputable def PositionalEncoding.init (model_dim max_seq_length : ℕ)
    (cls_token : Vec) : PositionalEncoding :=
  { cls_token := cls_token, pe := peTable max_seq_length model_dim }

/-- Broadcasting addition of the (1, max_seq_length, D) buffer pe to one
batch item of sequence length S: defined when S = max_seq_length, or when
either sequence axis has extent 1 (torch broadcasting). -/
def broadcastAdd (item : Mat) (pe : Mat) : Mat :=
  if item.length = pe.length then matAdd item pe
  else if item.length = 1 then pe.map (fun r => vecAdd (item.getD 0 []) r)
  else item.map (fun r => vecAdd r (pe.getD 0 []))

/-- PositionalEncoding.forward: expand the class token over the batch,
concatenate it in front of every item (torch.cat along dim 1), then add pe.
none models the RuntimeError of the broadcast addition when the sequence
length neither matches the table nor is broadcastable. -/
def PositionalEncoding.forward (m : PositionalEncoding) (x : Ten3) : Option Ten3 :=
  let tokens_batch := List.replicate x.length [m.cls_token]
  let xcat := List.zipWith (· ++ ·) tokens_batch x
  let s := (xcat.getD 0 []).length
  if s = m.pe.length ∨ s = 1 ∨ m.pe.length = 1 then
    some (xcat.map (fun item => broadcastAdd item m.pe))
  else none

/-! ### Attention Head (notebook class AttentionHead) -/

/-- AttentionHead module state: head size and the three projections. -/
structure AttentionHead where
  head_size : ℕ
  query : LinearParams
  key : LinearParams
  value : LinearParams

/-- The normalized attention weights of one head on one batch item:
softmax over the last axis of (Q Kᵀ) / head_size ** 0.5. -/
noncomputable def AttentionHead.attWeights (h : AttentionHead) (x : Mat) : Mat :=
  let q := x.map h.query.apply
  let k := x.map h.key.apply
  ((matmul q (transposeM k)).map
      (fun row => row.map (fun a => a / (h.head_size : ℝ) ^ ((0.5 : ℝ))))).map
    softmaxV

/-- AttentionHead.forward on one batch item: attention weights times V. -/
noncomputable def AttentionHead.forwardItem (h : AttentionHead) (x : Mat) : Mat :=
  matmul (h.attWeights x) (x.map h.value.apply)

/-- Well-formedness of one attention head for a given model dimension:
all three projections map model_dim to head_size. -/
def AttentionHead.wf (h : AttentionHead) (model_dim : ℕ) : Prop :=
  h.query.wf h.head_size model_dim ∧ h.key.wf h.head_size model_dim ∧
    h.value.wf h.head_size model_dim

/-! ### Multi-Head Attention (notebook class MultiHeadAttention) -/

/-- MultiHeadAttention module state. -/
structure MultiHeadAttention where
  head_size : ℕ
  W_o : LinearParams
  heads : List AttentionHead

/-- Raw random weights of one attention head, as drawn by its constructor. -/
structure HeadWeights where
  query : LinearParams
  key : LinearParams
  value : LinearParams

/-- MultiHeadAttention constructor: head_size is the floor division
model_dim // num_heads, with no divisibility check of its own; every head is
created with that head size. -/
def MultiHeadAttention.init (model_dim num_heads : ℕ) (wo : LinearParams)
    (hw : List HeadWeights) : MultiHeadAttention :=
  { head_size := model_dim / num_heads,
    W_o := wo,
    heads := hw.map (fun h =>
      { head_size := model_dim / num_heads,
        query := h.query, key := h.key, value := h.value }) }

/-- MultiHeadAttention.forward on one batch item: concatenate the per-head
outputs along the feature axis (torch.cat with dim -1), then apply W_o. -/
noncomputable def MultiHeadAttention.forwardItem (m : MultiHeadAttention) (x : Mat) : Mat :=
  let outs := m.heads.map (fun h => h.forwardItem x)
  let catted := tabulate x.length (fun i => (outs.map (fun o => o.getD i [])).flatten)
  catted.map m.W_o.apply

/-- MultiHeadAttention.forward on a batch. -/
noncomputable def MultiHeadAttention.forward (m : MultiHeadAttention) (x : Ten3) : Ten3 :=
  x.map m.forwardItem

/-- Well-formedness of a MultiHeadAttention for (model_dim, num_heads). -/
def MultiHeadAttention.wf (m : MultiHeadAttention) (model_dim num_heads : ℕ) : Prop :=
  m.heads.length = num_heads ∧
    (∀ h ∈ m.heads, h.head_size = m.head_size ∧ h.wf model_dim) ∧
    m.head_size * num_heads = model_dim ∧ 0 < m.head_size ∧
    m.W_o.wf model_dim model_dim

/-! ### Transformer Encoder (notebook class TransformerEncoder) -/

/-- TransformerEncoder module state: two layer norms, the multi-head
attention, and the two feed-forward projections. -/
structure TransformerEncoder where
  ln1_gamma : Vec
  ln1_beta : Vec
  mha : MultiHeadAttention
  ln2_gamma : Vec
  ln2_beta : Vec
  mlp1 : LinearParams
  mlp2 : LinearParams

/-- The feed-forward network nn.Sequential(Linear(D, D*r_mlp), GELU(),
Linear(D*r_mlp, D)) applied to one feature vector. -/
noncomputable def TransformerEncoder.mlpApply (e : TransformerEncoder) (v : Vec) : Vec :=
  e.mlp2.apply ((e.mlp1.apply v).map gelu)

/-- TransformerEncoder.forward on one batch item:
out = x + mha(ln1 x); out = out + mlp(ln2 out). -/
noncomputable def TransformerEncoder.forwardItem (e : TransformerEncoder) (x : Mat) : Mat :=
  let out1 := matAdd x (e.mha.forwardItem (x.map (layerNormV e.ln1_gamma e.ln1_beta)))
  matAdd out1 ((out1.map (layerNormV e.ln2_gamma e.ln2_beta)).map e.mlpApply)

/-- TransformerEncoder.forward on a batch. -/
noncomputable def TransformerEncoder.forward (e : TransformerEncoder) (x : Ten3) : Ten3 :=
  x.map e.forwardItem

/-- Raw random weights drawn by the TransformerEncoder constructor. -/
structure EncWeights where
  ln1_gamma : Vec
  ln1_beta : Vec
  headsW : List HeadWeights
  W_o : LinearParams
  ln2_gamma : Vec
  ln2_beta : Vec
  mlp1 : LinearParams
  mlp2 : LinearParams

/-- TransformerEncoder constructor (r_mlp = 4 only fixes weight shapes). -/
def TransformerEncoder.init (model_dim num_heads : ℕ) (w : EncWeights) :
    TransformerEncoder :=
  { ln1_gamma := w.ln1_gamma, ln1_beta := w.ln1_beta,
    mha := MultiHeadAttention.init model_dim num_heads w.W_o w.headsW,
    ln2_gamma := w.ln2_gamma, ln2_beta := w.ln2_beta,
    mlp1 := w.mlp1, mlp2 := w.mlp2 }

/-- Well-formedness of an encoder block for (model_dim, num_heads),
including the r_mlp = 4 expansion of the feed-forward weights. -/
def TransformerEncoder.wf (e : TransformerEncoder) (model_dim num_heads : ℕ) : Prop :=
  e.ln1_gamma.length = model_dim ∧ e.ln1_beta.length = model_dim ∧
    e.mha.wf model_dim num_heads ∧
    e.ln2_gamma.length = model_dim ∧ e.ln2_beta.length = model_dim ∧
    e.mlp1.wf (model_dim * 4) model_dim ∧ e.mlp2.wf model_dim (model_dim * 4)

/-! ### Vision Transformer (notebook class VisionTransformer) -/

/-- VisionTransformer module state (classifer keeps the notebook spelling). -/
structure VisionTransformer where
  model_dim : ℕ
  num_classes : ℕ
  img_size : ℕ × ℕ
  patch_size : ℕ × ℕ
  num_channels : ℕ
  num_heads : ℕ
  num_patches : ℕ
  max_seq_length : ℕ
  patch_embedding : PatchEmbedding
  positional_encoding : PositionalEncoding
  transformer_encoder : List TransformerEncoder
  classifer : LinearParams

/-- Raw random weights drawn by the VisionTransformer constructor. -/
structure ViTWeights where
  patchW : Ten4
  patchB : Vec
  cls_token : Vec
  encs : List EncWeights
  classW : LinearParams

/-- The body of the VisionTransformer constructor, after its asserts:
num_patches = (H * W) // (ph * pw), max_seq_length = num_patches + 1, and
the submodules built from the configuration. -/
noncomputable def VisionTransformer.make (model_dim num_classes : ℕ)
    (img_size patch_size : ℕ × ℕ) (num_channels num_heads num_layers : ℕ)
    (w : ViTWeights) : VisionTransformer :=
  let num_patches := img_size.1 * img_size.2 / (patch_size.1 * patch_size.2)
  { model_dim := model_dim, num_classes := num_classes,
    img_size := img_size, patch_size := patch_size,
    num_channels := num_channels, num_heads := num_heads,
    num_patches := num_patches, max_seq_length := num_patches + 1,
    patch_embedding :=
      { model_dim := model_dim, img_size := img_size, patch_size := patch_size,
        num_channels := num_channels, weight := w.patchW, bias := w.patchB },
    positional_encoding :=
      PositionalEncoding.init model_dim (num_patches + 1) w.cls_token,
    transformer_encoder := w.encs.map (TransformerEncoder.init model_dim num_heads),
    classifer := w.classW }

/-- The VisionTransformer constructor with its two asserts, in source order:
img_size divisible by patch_size in both dimensions, then model_dim
divisible by num_heads. none models a raised AssertionError. -/
noncomputable def VisionTransformer.init (model_dim num_classes : ℕ)
    (img_size patch_size : ℕ × ℕ) (num_channels num_heads num_layers : ℕ)
    (w : ViTWeights) : Option VisionTransformer :=
  if img_size.1 % patch_size.1 = 0 ∧ img_size.2 % patch_size.2 = 0 then
    if model_dim % num_heads = 0 then
      some (VisionTransformer.make model_dim num_classes img_size patch_size
        num_channels num_heads num_layers w)
    else none
  else none

/-- VisionTransformer.forward: patch embedding, positional encoding, the
nn.Sequential stack of encoders, then the classifier
nn.Sequential(Linear(D, num_classes), Softmax(dim 1)) on the class-token row
x[:, 0]. -/
noncomputable def VisionTransformer.forward (m : VisionTransformer) (images : Ten4) :
    Option Mat :=
  match m.patch_embedding.forward images with
  | none => none
  | some x1 =>
    match m.positional_encoding.forward x1 with
    | none => none
    | some x2 =>
      let x3 := m.transformer_encoder.foldl (fun acc e => e.forward acc) x2
      some ((x3.map (fun item => item.getD 0 [])).map
        (fun v => softmaxV (m.classifer.apply v)))

/-- Well-formedness of the raw encoder weights for a configuration: the
shapes nn.Linear and nn.LayerNorm draw at construction time. -/
def EncWeights.wf (e : EncWeights) (model_dim num_heads : ℕ) : Prop :=
  e.ln1_gamma.length = model_dim ∧ e.ln1_beta.length = model_dim ∧
    e.headsW.length = num_heads ∧
    (∀ h ∈ e.headsW,
      h.query.wf (model_dim / num_heads) model_dim ∧
      h.key.wf (model_dim / num_heads) model_dim ∧
      h.value.wf (model_dim / num_heads) model_dim) ∧
    e.W_o.wf model_dim model_dim ∧
    e.ln2_gamma.length = model_dim ∧ e.ln2_beta.length = model_dim ∧
    e.mlp1.wf (model_dim * 4) model_dim ∧ e.mlp2.wf model_dim (model_dim * 4)

/-- Well-formedness of the raw weights for a given configuration. -/
def ViTWeights.wf (w : ViTWeights) (model_dim num_classes : ℕ)
    (patch_size : ℕ × ℕ) (num_channels num_heads num_layers : ℕ) : Prop :=
  ten4Shape w.patchW model_dim num_channels patch_size.1 patch_size.2 ∧
    w.patchB.length = model_dim ∧
    w.cls_token.length = model_dim ∧
    w.encs.length = num_layers ∧
    (∀ e ∈ w.encs, e.wf model_dim num_heads) ∧
    w.classW.wf num_classes model_dim

/-! ### Concrete zero-initialised weights and inputs, for evaluation -/

/-- All-zero vector. -/
def zeroVec (n : ℕ) : Vec := List.replicate n 0

/-- All-zero matrix. -/
def zeroMat (r c : ℕ) : Mat := List.replicate r (zeroVec c)

/-- All-zero rank-3 tensor. -/
def zeroTen3 (a b c : ℕ) : Ten3 := List.replicate a (zeroMat b c)

/-- All-zero rank-4 tensor (a batch of images, or a conv kernel). -/
def zeroImage (b c h w : ℕ) : Ten4 := List.replicate b (zeroTen3 c h w)

/-- Zero-initialised nn.Linear parameters. -/
def zeroLinear (o i : ℕ) : LinearParams := ⟨zeroMat o i, zeroVec o⟩

/-- Zero-initialised attention-head weights. -/
def zeroHeadW (hs d : ℕ) : HeadWeights := ⟨zeroLinear hs d, zeroLinear hs d, zeroLinear hs d⟩

/-- Zero-initialised encoder-block weights. -/
def zeroEncW (d nh : ℕ) : EncWeights :=
  ⟨zeroVec d, zeroVec d, List.replicate nh (zeroHeadW (d / nh) d), zeroLinear d d,
    zeroVec d, zeroVec d, zeroLinear (d * 4) d, zeroLinear d (d * 4)⟩

/-- Zero-initialised Vision Transformer weights. -/
def zeroViTW (d nc : ℕ) (patch : ℕ × ℕ) (c nh nl : ℕ) : ViTWeights :=
  ⟨zeroImage d c patch.1 patch.2, zeroVec d, zeroVec d,
    List.replicate nl (zeroEncW d nh), zeroLinear nc d⟩

/-- A zero-initialised patch-embedding module with the notebook
configuration. -/
def zeroPatch : PatchEmbedding :=
  { model_dim := 9, img_size := (32, 32), patch_size := (16, 16), num_channels := 1,
    weight := zeroImage 9 1 16 16, bias := zeroVec 9 }

/-! ### Basic lemmas about the tensor toolkit -/

theorem tabulate_length {α : Type} (n : ℕ) (f : ℕ → α) : (tabulate n f).length = n := by
  simp [tabulate]

theorem tabulate_getElem {α : Type} (n : ℕ) (f : ℕ → α) (i : ℕ)
    (h : i < (tabulate n f).length) : (tabulate n f)[i] = f i := by
  simp [tabulate]

theorem tabulate_getD {α : Type} (n : ℕ) (f : ℕ → α) (i : ℕ) (d : α) (h : i < n) :
    (tabulate n f).getD i d = f i := by
  rw [List.getD_eq_getElem _ d (by simpa [tabulate_length] using h)]
  exact tabulate_getElem n f i (by simpa [tabulate_length] using h)

theorem mem_tabulate {α : Type} (n : ℕ) (f : ℕ → α) (a : α) (h : a ∈ tabulate n f) :
    ∃ i, i < n ∧ a = f i := by
  simp only [tabulate, List.mem_map, List.mem_range] at h
  obtain ⟨i, hi, rfl⟩ := h
  exact ⟨i, hi, rfl⟩

theorem tabulate_succ {α : Type} (n : ℕ) (f : ℕ → α) :
    tabulate (n + 1) f = f 0 :: tabulate n (fun i => f (i + 1)) := by
  simp [tabulate, List.range_succ_eq_map, List.map_map, Function.comp_def]

theorem getD_mem {α : Type} (l : List α) (i : ℕ) (d : α) (h : i < l.length) :
    l.getD i d ∈ l := by
  rw [List.getD_eq_getElem l d h]
  exact List.getElem_mem h

theorem matShape_getD (m : Mat) (r c : ℕ) (h : matShape m r c) (i : ℕ) (hi : i < r) :
    (m.getD i []).length = c :=
  h.2 _ (getD_mem m i [] (by rw [h.1]; exact hi))

theorem sum_map_div (l : List ℝ) (c : ℝ) : (l.map (fun a => a / c)).sum = l.sum / c := by
  induction l with
  | nil => simp
  | cons a t ih => simp [ih, add_div]

theorem sum_congr_replicate {α : Type} [AddMonoid α] (l : List α) (c : α)
    (h : ∀ a ∈ l, a = c) : l.sum = l.length • c := by
  rw [List.eq_replicate_of_mem h, List.sum_replicate, List.length_replicate]

/-! ### Softmax lemmas -/

theorem exp_sum_pos (v : Vec) (hv : v ≠ []) : 0 < (v.map Real.exp).sum := by
  apply List.sum_pos
  · intro x hx
    obtain ⟨a, _, rfl⟩ := List.mem_map.mp hx
    exact Real.exp_pos a
  · simpa using hv

theorem softmaxV_length (v : Vec) : (softmaxV v).length = v.length := by
  simp [softmaxV]

theorem softmaxV_sum (v : Vec) (hv : v ≠ []) : (softmaxV v).sum = 1 := by
  unfold softmaxV
  rw [show v.map (fun a => Real.exp a / (v.map Real.exp).sum)
      = (v.map Real.exp).map (fun a => a / (v.map Real.exp).sum) by
    rw [List.map_map]; rfl]
  rw [sum_map_div, div_self (ne_of_gt (exp_sum_pos v hv))]

theorem softmaxV_pos (v : Vec) (a : ℝ) (ha : a ∈ softmaxV v) : 0 < a := by
  obtain ⟨b, hb, rfl⟩ := List.mem_map.mp ha
  exact div_pos (Real.exp_pos b) (exp_sum_pos v (List.ne_nil_of_mem hb))

theorem softmaxV_lt_one (v : Vec) (hv : 2 ≤ v.length) (a : ℝ) (ha : a ∈ softmaxV v) :
    a < 1 := by
  obtain ⟨b, hb, rfl⟩ := List.mem_map.mp ha
  obtain ⟨s, t, rfl⟩ := List.append_of_mem hb
  have hst : (s ++ t) ≠ [] := by
    intro hc
    have h1 : s.length + t.length = 0 := by
      have := congrArg List.length hc
      simpa using this
    simp at hv
    omega
  have hpos : 0 < ((s ++ t).map Real.exp).sum := exp_sum_pos _ hst
  have hsum : ((s ++ (b :: t)).map Real.exp).sum
      = Real.exp b + ((s ++ t).map Real.exp).sum := by
    simp [List.sum_append]
    ring
  rw [div_lt_one (by rw [hsum]; positivity)]
  rw [hsum]
  linarith

/-! ### Linear, layer norm, elementwise lemmas -/

theorem LinearParams.apply_length (p : LinearParams) (o i : ℕ) (h : p.wf o i) (x : Vec) :
    (p.apply x).length = o := by
  obtain ⟨⟨hw, _⟩, hb⟩ := h
  simp [LinearParams.apply, List.length_zipWith, hw, hb]

theorem layerNormV_length (gamma beta x : Vec) (d : ℕ) (hg : gamma.length = d)
    (hb : beta.length = d) (hx : x.length = d) : (layerNormV gamma beta x).length = d := by
  simp [layerNormV, List.length_zipWith, hg, hb, hx]

theorem vecAdd_length (v w : Vec) : (vecAdd v w).length = min v.length w.length := by
  simp [vecAdd]

theorem matAdd_shape (a b : Mat) (r c : ℕ) (ha : matShape a r c) (hb : matShape b r c) :
    matShape (matAdd a b) r c := by
  constructor
  · simp [matAdd, List.length_zipWith, ha.1, hb.1]
  · intro row hrow
    obtain ⟨i, hi, rfl⟩ := List.mem_iff_getElem.mp hrow
    simp only [matAdd] at hi ⊢
    rw [List.getElem_zipWith, vecAdd_length,
      ha.2 _ (List.getElem_mem _), hb.2 _ (List.getElem_mem _), min_self]

/-! ### Matrix operation lemmas -/

theorem col_length (m : Mat) (j : ℕ) : (col m j).length = m.length := by
  simp [col]

theorem numCols_eq (m : Mat) (r c : ℕ) (h : matShape m r c) (hr : 0 < r) :
    numCols m = c := by
  unfold numCols
  exact matShape_getD m r c h 0 hr

theorem transposeM_shape (m : Mat) (r c : ℕ) (h : matShape m r c) (hr : 0 < r) :
    matShape (transposeM m) c r := by
  constructor
  · rw [transposeM, tabulate_length, numCols_eq m r c h hr]
  · intro row hrow
    obtain ⟨j, _, rfl⟩ := mem_tabulate _ _ _ hrow
    rw [col_length, h.1]

theorem matmul_shape (a b : Mat) (s k t : ℕ) (ha : matShape a s k) (hb : matShape b k t)
    (hk : 0 < k) : matShape (matmul a b) s t := by
  constructor
  · simp [matmul, ha.1]
  · intro row hrow
    obtain ⟨v, _, rfl⟩ := List.mem_map.mp hrow
    rw [tabulate_length, numCols_eq b k t hb hk]

theorem matShape_map (m : Mat) (r c c2 : ℕ) (f : Vec → Vec) (h : matShape m r c)
    (hf : ∀ v ∈ m, (f v).length = c2) : matShape (m.map f) r c2 := by
  constructor
  · simp [h.1]
  · intro row hrow
    obtain ⟨v, hv, rfl⟩ := List.mem_map.mp hrow
    exact hf v hv

/-! ### Attention head lemmas -/

theorem AttentionHead.attWeights_length (h : AttentionHead) (x : Mat) :
    (h.attWeights x).length = x.length := by
  simp [AttentionHead.attWeights, matmul]

theorem AttentionHead.attWeights_rows (h : AttentionHead) (d s : ℕ) (hwf : h.wf d)
    (hhs : 0 < h.head_size) (x : Mat) (hx : matShape x s d) :
    ∀ row ∈ h.attWeights x, row.length = s ∧ row.sum = 1 := by
  intro row hrow
  have hs : 0 < s := by
    have h1 : (h.attWeights x).length = s := by rw [h.attWeights_length, hx.1]
    have h2 : h.attWeights x ≠ [] := List.ne_nil_of_mem hrow
    rcases Nat.eq_zero_or_pos s with hz | hz
    · exact absurd (List.eq_nil_of_length_eq_zero (hz ▸ h1)) h2
    · exact hz
  have hq : matShape (x.map h.query.apply) s h.head_size :=
    matShape_map x s d _ _ hx (fun v _ => h.query.apply_length _ _ hwf.1 v)
  have hk : matShape (x.map h.key.apply) s h.head_size :=
    matShape_map x s d _ _ hx (fun v _ => h.key.apply_length _ _ hwf.2.1 v)
  have htk : matShape (transposeM (x.map h.key.apply)) h.head_size s :=
    transposeM_shape _ s h.head_size hk hs
  have hsc : matShape (matmul (x.map h.query.apply) (transposeM (x.map h.key.apply))) s s :=
    matmul_shape _ _ s h.head_size s hq htk hhs
  have hscaled : matShape
      ((matmul (x.map h.query.apply) (transposeM (x.map h.key.apply))).map
        (fun r => r.map (fun a => a / (h.head_size : ℝ) ^ ((0.5 : ℝ))))) s s :=
    matShape_map _ s s s _ hsc (fun v hv => by rw [List.length_map, hsc.2 v hv])
  simp only [AttentionHead.attWeights] at hrow
  obtain ⟨r2, hr2, rfl⟩ := List.mem_map.mp hrow
  have hlen : r2.length = s := hscaled.2 r2 hr2
  refine ⟨by rw [softmaxV_length, hlen], softmaxV_sum r2 ?_⟩
  intro hc
  rw [hc] at hlen
  simp at hlen
  omega

theorem AttentionHead.headOut_shape (h : AttentionHead) (d s : ℕ) (hwf : h.wf d)
    (hhs : 0 < h.head_size) (x : Mat) (hx : matShape x s d) :
    matShape (h.forwardItem x) s h.head_size := by
  constructor
  · simp [AttentionHead.forwardItem, matmul, h.attWeights_length, hx.1]
  · intro row hrow
    simp only [AttentionHead.forwardItem, matmul] at hrow
    obtain ⟨r1, hr1, rfl⟩ := List.mem_map.mp hrow
    have hs : 0 < s := by
      have h2 : h.attWeights x ≠ [] := List.ne_nil_of_mem hr1
      have h1 : (h.attWeights x).length = s := by rw [h.attWeights_length, hx.1]
      rcases Nat.eq_zero_or_pos s with hz | hz
      · exact absurd (List.eq_nil_of_length_eq_zero (hz ▸ h1)) h2
      · exact hz
    have hv : matShape (x.map h.value.apply) s h.head_size :=
      matShape_map x s d _ _ hx (fun v _ => h.value.apply_length _ _ hwf.2.2 v)
    rw [tabulate_length, numCols_eq _ s h.head_size hv hs]

/-! ### Multi-head attention lemmas -/

theorem MultiHeadAttention.catted_shape (m : MultiHeadAttention) (d nh s : ℕ)
    (hwf : m.wf d nh) (x : Mat) (hx : matShape x s d) :
    matShape
      (tabulate x.length (fun i =>
        ((m.heads.map (fun h => h.forwardItem x)).map (fun o => o.getD i [])).flatten))
      s d := by
  constructor
  · rw [tabulate_length, hx.1]
  · intro row hrow
    obtain ⟨i, hi, rfl⟩ := mem_tabulate _ _ _ hrow
    rw [List.length_flatten, List.map_map]
    rw [sum_congr_replicate _ m.head_size ?_]
    · simp only [List.length_map]
      rw [hwf.1, smul_eq_mul, Nat.mul_comm]
      exact hwf.2.2.1
    · intro a ha
      obtain ⟨o, ho, rfl⟩ := List.mem_map.mp ha
      obtain ⟨hd, hhd, rfl⟩ := List.mem_map.mp ho
      have hshape : matShape (hd.forwardItem x) s hd.head_size :=
        hd.headOut_shape d s ((hwf.2.1 hd hhd).2)
          ((hwf.2.1 hd hhd).1 ▸ hwf.2.2.2.1) x hx
      simp only [Function.comp]
      rw [matShape_getD _ s hd.head_size hshape i (by rw [← hx.1]; exact hi)]
      exact ((hwf.2.1 hd hhd).1)

theorem MultiHeadAttention.mhaOut_shape (m : MultiHeadAttention) (d nh s : ℕ)
    (hwf : m.wf d nh) (x : Mat) (hx : matShape x s d) :
    matShape (m.forwardItem x) s d := by
  have hcat := m.catted_shape d nh s hwf x hx
  exact matShape_map _ s d d _ hcat
    (fun v _ => m.W_o.apply_length d d hwf.2.2.2.2 v)

/-! ### Encoder block lemmas -/

theorem TransformerEncoder.mlpApply_length (e : TransformerEncoder) (d nh : ℕ)
    (hwf : e.wf d nh) (v : Vec) : (e.mlpApply v).length = d :=
  e.mlp2.apply_length d (d * 4) hwf.2.2.2.2.2.2 _

theorem TransformerEncoder.encItem_shape (e : TransformerEncoder) (d nh s : ℕ)
    (hwf : e.wf d nh) (x : Mat) (hx : matShape x s d) :
    matShape (e.forwardItem x) s d := by
  have hln1 : matShape (x.map (layerNormV e.ln1_gamma e.ln1_beta)) s d :=
    matShape_map x s d d _ hx
      (fun v hv => layerNormV_length _ _ v d hwf.1 hwf.2.1 (hx.2 v hv))
  have hmha : matShape (e.mha.forwardItem (x.map (layerNormV e.ln1_gamma e.ln1_beta))) s d :=
    e.mha.mhaOut_shape d nh s hwf.2.2.1 _ hln1
  have hout1 : matShape
      (matAdd x (e.mha.forwardItem (x.map (layerNormV e.ln1_gamma e.ln1_beta)))) s d :=
    matAdd_shape _ _ s d hx hmha
  have hln2 : matShape
      ((matAdd x (e.mha.forwardItem (x.map (layerNormV e.ln1_gamma e.ln1_beta)))).map
        (layerNormV e.ln2_gamma e.ln2_beta)) s d :=
    matShape_map _ s d d _ hout1
      (fun v hv => layerNormV_length _ _ v d hwf.2.2.2.1 hwf.2.2.2.2.1 (hout1.2 v hv))
  have hmlp : matShape
      (((matAdd x (e.mha.forwardItem (x.map (layerNormV e.ln1_gamma e.ln1_beta)))).map
        (layerNormV e.ln2_gamma e.ln2_beta)).map e.mlpApply) s d :=
    matShape_map _ s d d _ hln2 (fun v _ => e.mlpApply_length d nh hwf v)
  exact matAdd_shape _ _ s d hout1 hmlp

theorem ten3Shape_map (x : Ten3) (b s d s2 d2 : ℕ) (f : Mat → Mat) (h : ten3Shape x b s d)
    (hf : ∀ it ∈ x, matShape (f it) s2 d2) : ten3Shape (x.map f) b s2 d2 := by
  constructor
  · simp [h.1]
  · intro it hit
    obtain ⟨v, hv, rfl⟩ := List.mem_map.mp hit
    exact hf v hv

theorem TransformerEncoder.forward_shape (e : TransformerEncoder) (d nh b s : ℕ)
    (hwf : e.wf d nh) (x : Ten3) (hx : ten3Shape x b s d) :
    ten3Shape (e.forward x) b s d :=
  ten3Shape_map x b s d s d _ hx
    (fun it hit => e.encItem_shape d nh s hwf it (hx.2 it hit))

theorem encoders_foldl_shape (es : List TransformerEncoder) (d nh b s : ℕ)
    (hwf : ∀ e ∈ es, e.wf d nh) (x : Ten3) (hx : ten3Shape x b s d) :
    ten3Shape (es.foldl (fun acc e => e.forward acc) x) b s d := by
  induction es generalizing x with
  | nil => exact hx
  | cons e tl ih =>
    exact ih (fun e2 he2 => hwf e2 (List.mem_cons_of_mem e he2))
      (e.forward x) (e.forward_shape d nh b s (hwf e (List.mem_cons_self e tl)) x hx)

/-! ### Flatten and transpose indexing -/

theorem getD_map {α β : Type} (l : List α) (f : α → β) (j : ℕ) (d : β) (d2 : α)
    (h : j < l.length) : (l.map f).getD j d = f (l.getD j d2) := by
  rw [List.getD_eq_getElem _ d (by simpa using h), List.getD_eq_getElem _ d2 h,
    List.getElem_map]

theorem flatten_tabulate_length (h w : ℕ) (f : ℕ → ℕ → ℝ) :
    ((tabulate h (fun r => tabulate w (fun c => f r c))).flatten).length = h * w := by
  rw [List.length_flatten]
  rw [sum_congr_replicate ((tabulate h (fun r => tabulate w (fun c => f r c))).map
    List.length) w ?_]
  · simp [tabulate_length]
  · intro a ha
    obtain ⟨m, hm, rfl⟩ := List.mem_map.mp ha
    obtain ⟨r, _, rfl⟩ := mem_tabulate _ _ _ hm
    exact tabulate_length _ _

theorem flatten_tabulate_getD (h w : ℕ) (f : ℕ → ℕ → ℝ) (p : ℕ) (hp : p < h * w) :
    ((tabulate h (fun r => tabulate w (fun c => f r c))).flatten).getD p 0
      = f (p / w) (p % w) := by
  induction h generalizing f p with
  | zero =>
    rw [Nat.zero_mul] at hp
    exact absurd hp (Nat.not_lt_zero p)
  | succ n ih =>
    rw [tabulate_succ]
    simp only [List.flatten_cons]
    by_cases hpw : p < w
    · rw [List.getD_append _ _ 0 p (by rw [tabulate_length]; exact hpw)]
      rw [tabulate_getD w _ p 0 hpw, Nat.div_eq_of_lt hpw, Nat.mod_eq_of_lt hpw]
    · push_neg at hpw
      have hw : 0 < w := by
        rcases Nat.eq_zero_or_pos w with hz | hz
        · rw [hz, Nat.mul_zero] at hp; exact absurd hp (Nat.not_lt_zero p)
        · exact hz
      rw [List.getD_append_right _ _ 0 p (by rw [tabulate_length]; exact hpw)]
      rw [tabulate_length]
      have hlt : p - w < n * w := by
        rw [Nat.succ_mul] at hp
        exact (Nat.sub_lt_iff_lt_add hpw).mpr (by rw [Nat.add_comm]; exact hp)
      rw [ih (fun r c => f (r + 1) c) (p - w) hlt]
      have h1 : (p - w) / w + 1 = p / w := by
        rw [← Nat.add_div_right _ hw, Nat.sub_add_cancel hpw]
      have h2 : (p - w) % w = p % w := by
        conv_rhs => rw [← Nat.sub_add_cancel hpw]
        rw [Nat.add_mod_right]
      rw [h1, h2]

theorem transposeM_getD (m : Mat) (r c : ℕ) (h : matShape m r c) (hr : 0 < r)
    (i j : ℕ) (hi : i < c) (hj : j < r) :
    ((transposeM m).getD i []).getD j 0 = (m.getD j []).getD i 0 := by
  rw [show (transposeM m).getD i [] = col m i by
    rw [transposeM, tabulate_getD (numCols m) _ i [] (by rw [numCols_eq m r c h hr]; exact hi)]]
  rw [col, getD_map m _ j 0 [] (by rw [h.1]; exact hj)]

/-! ### Patch embedding lemmas -/

theorem convGrid_eq (n p : ℕ) (hp : 0 < p) (hle : p ≤ n) : (n - p) / p + 1 = n / p := by
  rw [← Nat.add_div_right _ hp, Nat.sub_add_cancel hle]

theorem PatchEmbedding.item_spec (p : PatchEmbedding) (cC hH wW : ℕ) (img : Ten3)
    (himg : img.length = cC ∧ ∀ ch ∈ img, matShape ch hH wW) (hc : 0 < cC)
    (hmd : 0 < p.model_dim) (hph : 0 < p.patch_size.1) (hpw : 0 < p.patch_size.2)
    (hh : p.patch_size.1 ≤ hH) (hw : p.patch_size.2 ≤ wW) :
    matShape (transposeM (flatten2 (p.convItem img)))
      (hH / p.patch_size.1 * (wW / p.patch_size.2)) p.model_dim ∧
    ∀ pi d : ℕ, pi < hH / p.patch_size.1 * (wW / p.patch_size.2) → d < p.model_dim →
      ((transposeM (flatten2 (p.convItem img))).getD pi []).getD d 0
        = conv2dEntry p img d (pi / (wW / p.patch_size.2)) (pi % (wW / p.patch_size.2)) := by
  have hch0 : matShape (img.getD 0 []) hH wW :=
    himg.2 _ (getD_mem img 0 [] (by rw [himg.1]; exact hc))
  have hHin : (img.getD 0 []).length = hH := hch0.1
  have hWin : ((img.getD 0 []).getD 0 []).length = wW :=
    matShape_getD _ hH wW hch0 0 (Nat.lt_of_lt_of_le hph hh)
  have hconv : p.convItem img = tabulate p.model_dim (fun d =>
      tabulate (hH / p.patch_size.1) (fun r =>
        tabulate (wW / p.patch_size.2) (fun c => conv2dEntry p img d r c))) := by
    rw [PatchEmbedding.convItem]
    simp only [hHin, hWin]
    rw [convGrid_eq hH p.patch_size.1 hph hh, convGrid_eq wW p.patch_size.2 hpw hw]
  have hflat : matShape (flatten2 (p.convItem img)) p.model_dim
      (hH / p.patch_size.1 * (wW / p.patch_size.2)) := by
    rw [hconv, flatten2]
    constructor
    · simp [tabulate_length]
    · intro row hrow
      obtain ⟨m, hm, rfl⟩ := List.mem_map.mp hrow
      obtain ⟨d, _, rfl⟩ := mem_tabulate _ _ _ hm
      exact flatten_tabulate_length _ _ _
  refine ⟨transposeM_shape _ _ _ hflat hmd, ?_⟩
  intro pi d hpi hd
  rw [transposeM_getD _ p.model_dim (hH / p.patch_size.1 * (wW / p.patch_size.2))
    hflat hmd pi d hpi hd]
  rw [hconv, flatten2]
  rw [getD_map _ List.flatten d [] [] (by rw [tabulate_length]; exact hd)]
  rw [tabulate_getD p.model_dim _ d [] hd]
  exact flatten_tabulate_getD _ _ _ pi hpi

theorem PatchEmbedding.patchForward_spec (p : PatchEmbedding) (b hH wW : ℕ) (x : Ten4)
    (hx : ten4Shape x b p.num_channels hH wW) (hb : 0 < b) (hc : 0 < p.num_channels)
    (hmd : 0 < p.model_dim) (hph : 0 < p.patch_size.1) (hpw : 0 < p.patch_size.2)
    (hh : p.patch_size.1 ≤ hH) (hw : p.patch_size.2 ≤ wW) :
    p.forward x = some (x.map (fun img => transposeM (flatten2 (p.convItem img)))) ∧
    ten3Shape (x.map (fun img => transposeM (flatten2 (p.convItem img)))) b
      (hH / p.patch_size.1 * (wW / p.patch_size.2)) p.model_dim := by
  have himg0 := hx.2 _ (getD_mem x 0 [] (by rw [hx.1]; exact hb))
  have hC : ((x.getD 0 []).length) = p.num_channels := himg0.1
  have hch0 : matShape ((x.getD 0 []).getD 0 []) hH wW :=
    himg0.2 _ (getD_mem _ 0 [] (by rw [himg0.1]; exact hc))
  have hH0 : (((x.getD 0 []).getD 0 []).length) = hH := hch0.1
  have hW0 : ((((x.getD 0 []).getD 0 []).getD 0 []).length) = wW :=
    matShape_getD _ hH wW hch0 0 (Nat.lt_of_lt_of_le hph hh)
  constructor
  · rw [PatchEmbedding.forward]
    simp only [hC, hH0, hW0]
    rw [if_pos (by exact ⟨by simp, hh, hw⟩)]
  · constructor
    · simp [hx.1]
    · intro it hit
      obtain ⟨img, himg, rfl⟩ := List.mem_map.mp hit
      exact (p.item_spec p.num_channels hH wW img (hx.2 img himg) hc hmd hph hpw hh hw).1

theorem PatchEmbedding.patchForward_none (p : PatchEmbedding) (b cC hH wW : ℕ) (x : Ten4)
    (hx : ten4Shape x b cC hH wW) (hb : 0 < b) (hc : 0 < cC) (hhh : 0 < hH)
    (hbad : cC ≠ p.num_channels ∨ hH < p.patch_size.1 ∨ wW < p.patch_size.2) :
    p.forward x = none := by
  have himg0 := hx.2 _ (getD_mem x 0 [] (by rw [hx.1]; exact hb))
  have hC : ((x.getD 0 []).length) = cC := himg0.1
  have hch0 : matShape ((x.getD 0 []).getD 0 []) hH wW :=
    himg0.2 _ (getD_mem _ 0 [] (by rw [himg0.1]; exact hc))
  have hH0 : (((x.getD 0 []).getD 0 []).length) = hH := hch0.1
  have hW0 : ((((x.getD 0 []).getD 0 []).getD 0 []).length) = wW :=
    matShape_getD _ hH wW hch0 0 hhh
  rw [PatchEmbedding.forward]
  simp only [hC, hH0, hW0]
  rw [if_neg]
  intro hcond
  rcases hbad with h1 | h1 | h1
  · exact h1 hcond.1
  · omega
  · omega

/-! ### Positional encoding lemmas -/

theorem peTable_shape (m d : ℕ) : matShape (peTable m d) m d := by
  constructor
  · rw [peTable, tabulate_length]
  · intro row hrow
    obtain ⟨i, _, rfl⟩ := mem_tabulate _ _ _ hrow
    exact tabulate_length _ _

theorem zipWith_append_replicate (c : Vec) (x : Ten3) :
    List.zipWith (· ++ ·) (List.replicate x.length [c]) x = x.map (fun it => c :: it) := by
  induction x with
  | nil => rfl
  | cons a t ih => simpa [List.replicate_succ] using ih

theorem PositionalEncoding.peForward_spec (m : PositionalEncoding) (b pP d : ℕ) (x : Ten3)
    (hx : ten3Shape x b pP d) (hb : 0 < b) (hcls : m.cls_token.length = d)
    (hpe : matShape m.pe (pP + 1) d) :
    m.forward x = some (x.map (fun it => matAdd (m.cls_token :: it) m.pe)) ∧
    ten3Shape (x.map (fun it => matAdd (m.cls_token :: it) m.pe)) b (pP + 1) d := by
  have hconsShape : ∀ it ∈ x, matShape (m.cls_token :: it) (pP + 1) d := by
    intro it hit
    constructor
    · simp [(hx.2 it hit).1]
    · intro row hrow
      rcases List.mem_cons.mp hrow with h1 | h1
      · rw [h1]; exact hcls
      · exact (hx.2 it hit).2 row h1
  have hcat : List.zipWith (· ++ ·) (List.replicate x.length [m.cls_token]) x
      = x.map (fun it => m.cls_token :: it) := zipWith_append_replicate m.cls_token x
  have hs0 : ((x.map (fun it => m.cls_token :: it)).getD 0 []).length = pP + 1 := by
    rw [getD_map x _ 0 [] [] (by rw [hx.1]; exact hb), List.length_cons,
      (hx.2 _ (getD_mem x 0 [] (by rw [hx.1]; exact hb))).1]
  constructor
  · rw [PositionalEncoding.forward]
    simp only [hcat, hs0]
    rw [if_pos (Or.inl hpe.1.symm)]
    rw [List.map_map]
    apply congrArg
    apply List.map_congr_left
    intro it hit
    simp only [Function.comp]
    rw [broadcastAdd, if_pos (by rw [(hconsShape it hit).1, hpe.1])]
  · apply ten3Shape_map x b pP d (pP + 1) d _ hx
    intro it hit
    exact matAdd_shape _ _ (pP + 1) d (hconsShape it hit) hpe

theorem PositionalEncoding.peForward_none (m : PositionalEncoding) (b pP d : ℕ) (x : Ten3)
    (hx : ten3Shape x b pP d) (hb : 0 < b) (hP : 0 < pP)
    (hne : pP + 1 ≠ m.pe.length) (hpe1 : m.pe.length ≠ 1) :
    m.forward x = none := by
  have hcat : List.zipWith (· ++ ·) (List.replicate x.length [m.cls_token]) x
      = x.map (fun it => m.cls_token :: it) := zipWith_append_replicate m.cls_token x
  have hs0 : ((x.map (fun it => m.cls_token :: it)).getD 0 []).length = pP + 1 := by
    rw [getD_map x _ 0 [] [] (by rw [hx.1]; exact hb), List.length_cons,
      (hx.2 _ (getD_mem x 0 [] (by rw [hx.1]; exact hb))).1]
  rw [PositionalEncoding.forward]
  simp only [hcat, hs0]
  rw [if_neg]
  intro hcond
  rcases hcond with h1 | h1 | h1
  · exact hne h1
  · omega
  · exact hpe1 h1

/-! ### Construction lemmas and the full forward pass -/

theorem MultiHeadAttention.mhaInit_wf (model_dim num_heads : ℕ) (wo : LinearParams)
    (hw : List HeadWeights) (hwo : wo.wf model_dim model_dim)
    (hhw : hw.length = num_heads)
    (hhwf : ∀ h ∈ hw, h.query.wf (model_dim / num_heads) model_dim ∧
      h.key.wf (model_dim / num_heads) model_dim ∧
      h.value.wf (model_dim / num_heads) model_dim)
    (hdvd : model_dim % num_heads = 0) (h0md : 0 < model_dim) (h0nh : 0 < num_heads) :
    (MultiHeadAttention.init model_dim num_heads wo hw).wf model_dim num_heads := by
  have hdvd2 : num_heads ∣ model_dim := Nat.dvd_of_mod_eq_zero hdvd
  refine ⟨by simp only [MultiHeadAttention.init, List.length_map]; exact hhw,
    ?_, ?_, ?_, hwo⟩
  · intro hd hhd
    simp only [MultiHeadAttention.init, List.mem_map] at hhd
    obtain ⟨h2, hh2, rfl⟩ := hhd
    exact ⟨rfl, (hhwf h2 hh2).1, (hhwf h2 hh2).2.1, (hhwf h2 hh2).2.2⟩
  · exact Nat.div_mul_cancel hdvd2
  · exact Nat.div_pos (Nat.le_of_dvd h0md hdvd2) h0nh

theorem TransformerEncoder.encInit_wf (model_dim num_heads : ℕ) (e : EncWeights)
    (hwf : e.wf model_dim num_heads) (hdvd : model_dim % num_heads = 0)
    (h0md : 0 < model_dim) (h0nh : 0 < num_heads) :
    (TransformerEncoder.init model_dim num_heads e).wf model_dim num_heads := by
  obtain ⟨h1, h2, h3, h4, h5, h6, h7, h8, h9⟩ := hwf
  exact ⟨h1, h2, MultiHeadAttention.mhaInit_wf model_dim num_heads e.W_o e.headsW
    h5 h3 h4 hdvd h0md h0nh, h6, h7, h8, h9⟩

theorem VisionTransformer.vitForward_spec (m : VisionTransformer) (b hH wW : ℕ) (x : Ten4)
    (hpm : m.patch_embedding.model_dim = m.model_dim)
    (hpp : m.patch_embedding.patch_size = m.patch_size)
    (hpc : m.patch_embedding.num_channels = m.num_channels)
    (hcls : m.positional_encoding.cls_token.length = m.model_dim)
    (hpe : matShape m.positional_encoding.pe (m.num_patches + 1) m.model_dim)
    (hencs : ∀ e ∈ m.transformer_encoder, e.wf m.model_dim m.num_heads)
    (hclw : m.classifer.wf m.num_classes m.model_dim)
    (h0md : 0 < m.model_dim) (h0nc : 0 < m.num_classes)
    (h0ph : 0 < m.patch_size.1) (h0pw : 0 < m.patch_size.2)
    (hx : ten4Shape x b m.num_channels hH wW) (hb : 0 < b) (hc : 0 < m.num_channels)
    (hh : m.patch_size.1 ≤ hH) (hw : m.patch_size.2 ≤ wW)
    (hgrid : hH / m.patch_size.1 * (wW / m.patch_size.2) = m.num_patches) :
    ∃ y, m.forward x = some y ∧ y.length = b ∧
      ∀ row ∈ y, row.length = m.num_classes ∧ row.sum = 1 ∧
        (∀ a ∈ row, 0 < a) ∧ (2 ≤ m.num_classes → ∀ a ∈ row, a < 1) := by
  obtain ⟨h1, hx1⟩ := m.patch_embedding.patchForward_spec b hH wW x
    (by rw [hpc]; exact hx) hb (by rw [hpc]; exact hc) (by rw [hpm]; exact h0md)
    (by rw [hpp]; exact h0ph) (by rw [hpp]; exact h0pw)
    (by rw [hpp]; exact hh) (by rw [hpp]; exact hw)
  rw [hpp, hpm, hgrid] at hx1
  obtain ⟨h2, hx2⟩ := m.positional_encoding.peForward_spec b m.num_patches m.model_dim _
    hx1 hb hcls hpe
  have hx3 := encoders_foldl_shape m.transformer_encoder m.model_dim m.num_heads b
    (m.num_patches + 1) hencs _ hx2
  refine ⟨((m.transformer_encoder.foldl (fun acc e => e.forward acc)
      (List.map (fun it => matAdd (m.positional_encoding.cls_token :: it)
          m.positional_encoding.pe)
        (List.map (fun img => transposeM (flatten2 (m.patch_embedding.convItem img))) x))).map
      (fun item => item.getD 0 [])).map
      (fun v => softmaxV (m.classifer.apply v)), ?_, ?_, ?_⟩
  · simp only [VisionTransformer.forward, h1, h2]
  · simp only [List.length_map]
    exact hx3.1
  · intro row hrow
    obtain ⟨v, hv, rfl⟩ := List.mem_map.mp hrow
    obtain ⟨item, hitem, rfl⟩ := List.mem_map.mp hv
    have hvlen : (item.getD 0 []).length = m.model_dim :=
      matShape_getD _ _ _ (hx3.2 item hitem) 0 (Nat.succ_pos _)
    have happly : (m.classifer.apply (item.getD 0 [])).length = m.num_classes :=
      m.classifer.apply_length _ _ hclw _
    have hne : m.classifer.apply (item.getD 0 []) ≠ [] := by
      intro hcon
      rw [hcon] at happly
      simp at happly
      omega
    refine ⟨by rw [softmaxV_length, happly], softmaxV_sum _ hne, ?_, ?_⟩
    · intro a ha
      exact softmaxV_pos _ a ha
    · intro h2nc a ha
      exact softmaxV_lt_one _ (by rw [happly]; exact h2nc) a ha

theorem make_forward_spec (model_dim num_classes : ℕ) (img_size patch_size : ℕ × ℕ)
    (num_channels num_heads num_layers : ℕ) (w : ViTWeights)
    (hwf : w.wf model_dim num_classes patch_size num_channels num_heads num_layers)
    (hdvd3 : model_dim % num_heads = 0) (h0md : 0 < model_dim) (h0nh : 0 < num_heads)
    (h0nc : 0 < num_classes) (h0ph : 0 < patch_size.1) (h0pw : 0 < patch_size.2)
    (b hH wW : ℕ) (x : Ten4) (hx : ten4Shape x b num_channels hH wW) (hb : 0 < b)
    (hc : 0 < num_channels) (hh : patch_size.1 ≤ hH) (hw : patch_size.2 ≤ wW)
    (hgrid : hH / patch_size.1 * (wW / patch_size.2)
      = img_size.1 * img_size.2 / (patch_size.1 * patch_size.2)) :
    ∃ y, (VisionTransformer.make model_dim num_classes img_size patch_size num_channels
        num_heads num_layers w).forward x = some y ∧
      y.length = b ∧
      ∀ row ∈ y, row.length = num_classes ∧ row.sum = 1 ∧
        (∀ a ∈ row, 0 < a) ∧ (2 ≤ num_classes → ∀ a ∈ row, a < 1) := by
  obtain ⟨hw1, hw2, hw3, hw4, hw5, hw6⟩ := hwf
  exact VisionTransformer.vitForward_spec
    (VisionTransformer.make model_dim num_classes img_size patch_size num_channels
      num_heads num_layers w) b hH wW x rfl rfl rfl hw3
    (peTable_shape _ _)
    (by
      intro e he
      simp only [VisionTransformer.make, List.mem_map] at he
      obtain ⟨ew, hew, rfl⟩ := he
      exact TransformerEncoder.encInit_wf model_dim num_heads ew (hw5 ew hew)
        hdvd3 h0md h0nh)
    hw6 h0md h0nc h0ph h0pw hx hb hc hh hw hgrid

theorem zeroVec_length (n : ℕ) : (zeroVec n).length = n := by
  simp [zeroVec]

theorem zeroMat_shape (r c : ℕ) : matShape (zeroMat r c) r c := by
  refine ⟨by simp [zeroMat], ?_⟩
  intro row hr
  rw [List.eq_of_mem_replicate hr]
  exact zeroVec_length c

theorem zeroTen3_shape (a b c : ℕ) : ten3Shape (zeroTen3 a b c) a b c := by
  refine ⟨by simp [zeroTen3], ?_⟩
  intro it hit
  rw [List.eq_of_mem_replicate hit]
  exact zeroMat_shape b c

theorem zeroImage_shape (b c h w : ℕ) : ten4Shape (zeroImage b c h w) b c h w := by
  refine ⟨by simp [zeroImage], ?_⟩
  intro img himg
  rw [List.eq_of_mem_replicate himg]
  exact ⟨(zeroTen3_shape c h w).1, (zeroTen3_shape c h w).2⟩

theorem zeroLinear_wf (o i : ℕ) : (zeroLinear o i).wf o i :=
  ⟨zeroMat_shape o i, zeroVec_length o⟩

theorem zeroHeadW_wf (hs d : ℕ) :
    (zeroHeadW hs d).query.wf hs d ∧ (zeroHeadW hs d).key.wf hs d ∧
      (zeroHeadW hs d).value.wf hs d :=
  ⟨zeroLinear_wf hs d, zeroLinear_wf hs d, zeroLinear_wf hs d⟩

theorem zeroEncW_wf (d nh : ℕ) : (zeroEncW d nh).wf d nh := by
  refine ⟨zeroVec_length d, zeroVec_length d, by simp [zeroEncW], ?_,
    zeroLinear_wf d d, zeroVec_length d, zeroVec_length d,
    zeroLinear_wf (d * 4) d, zeroLinear_wf d (d * 4)⟩
  intro h hh
  simp only [zeroEncW] at hh
  rw [List.eq_of_mem_replicate hh]
  exact zeroHeadW_wf (d / nh) d

theorem zeroViTW_wf (d nc : ℕ) (patch : ℕ × ℕ) (c nh nl : ℕ) :
    (zeroViTW d nc patch c nh nl).wf d nc patch c nh nl := by
  refine ⟨zeroImage_shape d c patch.1 patch.2, zeroVec_length d, zeroVec_length d,
    by simp [zeroViTW], ?_, zeroLinear_wf nc d⟩
  intro e he
  simp only [zeroViTW] at he
  rw [List.eq_of_mem_replicate he]
  exact zeroEncW_wf d nh

/-! ### Claim theorems -/

/-- Claim C4: the positional table is a (max_seq_length, model_dim) array
whose entry (pos, i) is sin(pos / 10000 ^ (i / model_dim)) for even i and
cos(pos / 10000 ^ ((i - 1) / model_dim)) for odd i, and it is a
deterministic function of (max_seq_length, model_dim) alone: two models
built from the same configuration with different random weights hold the
identical, never-recomputed table. -/
theorem claim_C4 (M D : ℕ) :
    matShape (peTable M D) M D ∧
    (∀ pos i : ℕ, pos < M → i < D →
      ((peTable M D).getD pos []).getD i 0 =
        (if i % 2 = 0 then Real.sin ((pos : ℝ) / (10000 : ℝ) ^ ((i : ℝ) / (D : ℝ)))
         else Real.cos ((pos : ℝ) / (10000 : ℝ) ^ (((i : ℝ) - 1) / (D : ℝ))))) ∧
    (∀ (model_dim num_classes : ℕ) (img_size patch_size : ℕ × ℕ)
      (num_channels num_heads num_layers : ℕ) (w w2 : ViTWeights),
      (VisionTransformer.make model_dim num_classes img_size patch_size num_channels
        num_heads num_layers w).positional_encoding.pe =
      (VisionTransformer.make model_dim num_classes img_size patch_size num_channels
        num_heads num_layers w2).positional_encoding.pe) := by
  refine ⟨peTable_shape M D, ?_, ?_⟩
  · intro pos i hpos hi
    rw [peTable, tabulate_getD M _ pos [] hpos, tabulate_getD D _ i 0 hi]
    by_cases hpar : i % 2 = 0
    · rw [if_pos hpar, if_pos hpar]
    · rw [if_neg hpar, if_neg hpar]
      have hi1 : 1 ≤ i := by omega
      rw [Nat.cast_sub hi1]
      simp
  · intro model_dim num_classes img_size patch_size num_channels num_heads num_layers w w2
    rfl

/-- Claim C4 witness: entry (0, 0) of the (5, 9) table, as used by the
notebook configuration, evaluates to the sine formula. -/
theorem claim_C4_witness :
    ((peTable 5 9).getD 0 []).getD 0 0
      = Real.sin ((0 : ℝ) / (10000 : ℝ) ^ ((0 : ℝ) / (9 : ℝ))) := by
  rw [(claim_C4 5 9).2.1 0 0 (by decide) (by decide)]
  norm_num

/-- Claim C5: on a well-formed (B, P, model_dim) input whose P + 1 matches
the table, Positional Encoding succeeds with a (B, P+1, model_dim) output —
sequence length exactly input length + 1 — and the per-item output is
independent of batch size: one item replicated into a batch of two yields
two identical outputs, each equal to the single-item result. -/
theorem claim_C5 (m : PositionalEncoding) (b pP d : ℕ) (x : Ten3)
    (hx : ten3Shape x b pP d) (hb : 0 < b) (hcls : m.cls_token.length = d)
    (hpe : matShape m.pe (pP + 1) d) :
    (∃ y, m.forward x = some y ∧ ten3Shape y b (pP + 1) d) ∧
    (∀ v : Mat, matShape v pP d →
      m.forward [v, v] = some [matAdd (m.cls_token :: v) m.pe,
        matAdd (m.cls_token :: v) m.pe] ∧
      m.forward [v] = some [matAdd (m.cls_token :: v) m.pe]) := by
  obtain ⟨h1, h2⟩ := m.peForward_spec b pP d x hx hb hcls hpe
  refine ⟨⟨_, h1, h2⟩, ?_⟩
  intro v hv
  have hx2 : ten3Shape [v, v] 2 pP d := by
    refine ⟨rfl, ?_⟩
    intro it hit
    rcases List.mem_cons.mp hit with h | h
    · rw [h]; exact hv
    · rw [List.mem_singleton.mp h]; exact hv
  have hx1 : ten3Shape [v] 1 pP d := by
    refine ⟨rfl, ?_⟩
    intro it hit
    rw [List.mem_singleton.mp hit]
    exact hv
  obtain ⟨g1, -⟩ := m.peForward_spec 2 pP d [v, v] hx2 (by norm_num) hcls hpe
  obtain ⟨g2, -⟩ := m.peForward_spec 1 pP d [v] hx1 (by norm_num) hcls hpe
  exact ⟨by simpa using g1, by simpa using g2⟩

/-- Claim C5 witness: the notebook-shaped table (5, 9) on a (1, 4, 9)
zero input yields a (1, 5, 9) output. -/
theorem claim_C5_witness :
    ∃ y, (PositionalEncoding.init 9 5 (zeroVec 9)).forward (zeroTen3 1 4 9) = some y ∧
      ten3Shape y 1 5 9 :=
  (claim_C5 (PositionalEncoding.init 9 5 (zeroVec 9)) 1 4 9 (zeroTen3 1 4 9)
    (zeroTen3_shape 1 4 9) (by norm_num) (zeroVec_length 9) (peTable_shape 5 9)).1

/-- Claim C6: the Attention Head projects a well-formed (B, S, model_dim)
input through query, key and value maps model_dim → head_size, scales the
score matrix by head_size ** 0.5 (its definition), softmaxes each row over
the key axis with no masking, and returns weights times value of shape
(B, S, head_size); every normalized weight row has full length S (every
token attends to every token) and sums to 1. -/
theorem claim_C6 (h : AttentionHead) (d b s : ℕ) (hwf : h.wf d) (hhs : 0 < h.head_size)
    (x : Ten3) (hx : ten3Shape x b s d) :
    ten3Shape (x.map h.forwardItem) b s h.head_size ∧
    (∀ it ∈ x, ∀ row ∈ h.attWeights it, row.length = s ∧ row.sum = 1) ∧
    (∀ it : Mat, h.forwardItem it = matmul (h.attWeights it) (it.map h.value.apply)) := by
  refine ⟨ten3Shape_map x b s d s h.head_size _ hx
    (fun it hit => h.headOut_shape d s hwf hhs it (hx.2 it hit)), ?_, fun it => rfl⟩
  intro it hit row hrow
  exact h.attWeights_rows d s hwf hhs it (hx.2 it hit) row hrow

/-- Claim C6 witness: a zero-weight head of size 3 over model dimension 9
maps a (1, 2, 9) zero batch to a (1, 2, 3) output. -/
theorem claim_C6_witness :
    ten3Shape ((zeroTen3 1 2 9).map
      (AttentionHead.forwardItem ⟨3, zeroLinear 3 9, zeroLinear 3 9, zeroLinear 3 9⟩))
      1 2 3 :=
  (claim_C6 ⟨3, zeroLinear 3 9, zeroLinear 3 9, zeroLinear 3 9⟩ 9 1 2
    ⟨zeroLinear_wf 3 9, zeroLinear_wf 3 9, zeroLinear_wf 3 9⟩ (by norm_num)
    (zeroTen3 1 2 9) (zeroTen3_shape 1 2 9)).1

/-- Claim C7: the Transformer Encoder block maps every well-formed
(B, S, model_dim) input to an output of identical shape, computed as two
pre-normalized residual stages out1 = x + MHA(LN1 x) and
out2 = out1 + MLP(LN2 out1); the feed-forward is Linear then GELU then
Linear with expansion factor r_mlp = 4 in the weight shapes. -/
theorem claim_C7 (e : TransformerEncoder) (d nh b s : ℕ) (hwf : e.wf d nh)
    (x : Ten3) (hx : ten3Shape x b s d) :
    ten3Shape (e.forward x) b s d ∧
    (∀ it : Mat, e.forwardItem it =
      matAdd (matAdd it (e.mha.forwardItem (it.map (layerNormV e.ln1_gamma e.ln1_beta))))
        (((matAdd it (e.mha.forwardItem
            (it.map (layerNormV e.ln1_gamma e.ln1_beta)))).map
          (layerNormV e.ln2_gamma e.ln2_beta)).map e.mlpApply)) ∧
    (∀ v : Vec, e.mlpApply v = e.mlp2.apply ((e.mlp1.apply v).map gelu)) ∧
    e.mlp1.weight.length = d * 4 :=
  ⟨e.forward_shape d nh b s hwf x hx, fun it => rfl, fun v => rfl,
    hwf.2.2.2.2.2.1.1.1⟩

/-- Claim C7 witness: a zero-weight encoder block for model dimension 9 and
3 heads maps a (2, 5, 9) zero batch to a (2, 5, 9) output. -/
theorem claim_C7_witness :
    ten3Shape ((TransformerEncoder.init 9 3 (zeroEncW 9 3)).forward (zeroTen3 2 5 9))
      2 5 9 :=
  (claim_C7 (TransformerEncoder.init 9 3 (zeroEncW 9 3)) 9 3 2 5
    (TransformerEncoder.encInit_wf 9 3 (zeroEncW 9 3) (zeroEncW_wf 9 3) (by decide)
      (by norm_num) (by norm_num))
    (zeroTen3 2 5 9) (zeroTen3_shape 2 5 9)).1

/-- Claim C1: for every valid configuration (both divisibility invariants,
positive dimensions, at least two classes) and every well-formed input batch
of the configured shape with batch size at least 1, the Vision Transformer
forward pass succeeds and returns a (B, num_classes) matrix in which every
row is a probability distribution: entries strictly in (0, 1) summing to 1;
moreover the notebook configuration model_dim=9, img_size=(32,32),
patch_size=(16,16), num_channels=1, num_heads=3, num_layers=3,
num_classes=10 yields num_patches = 4 and max_seq_length = 5. -/
theorem claim_C1 (model_dim num_classes : ℕ) (img_size patch_size : ℕ × ℕ)
    (num_channels num_heads num_layers : ℕ) (w : ViTWeights)
    (hwf : w.wf model_dim num_classes patch_size num_channels num_heads num_layers)
    (hdvd1 : img_size.1 % patch_size.1 = 0) (hdvd2 : img_size.2 % patch_size.2 = 0)
    (hdvd3 : model_dim % num_heads = 0) (h0md : 0 < model_dim) (h0nh : 0 < num_heads)
    (h2nc : 2 ≤ num_classes) (h0ph : 0 < patch_size.1) (h0pw : 0 < patch_size.2)
    (h0c : 0 < num_channels) (h0H : 0 < img_size.1) (h0W : 0 < img_size.2)
    (b : ℕ) (hb : 1 ≤ b) (x : Ten4)
    (hx : ten4Shape x b num_channels img_size.1 img_size.2) :
    (∃ y, (VisionTransformer.make model_dim num_classes img_size patch_size num_channels
        num_heads num_layers w).forward x = some y ∧
      y.length = b ∧
      ∀ row ∈ y, row.length = num_classes ∧ row.sum = 1 ∧ ∀ a ∈ row, 0 < a ∧ a < 1) ∧
    (VisionTransformer.make 9 10 (32, 32) (16, 16) 1 3 3 w).num_patches = 4 ∧
    (VisionTransformer.make 9 10 (32, 32) (16, 16) 1 3 3 w).max_seq_length = 5 := by
  have hd1 : patch_size.1 ∣ img_size.1 := Nat.dvd_of_mod_eq_zero hdvd1
  have hd2 : patch_size.2 ∣ img_size.2 := Nat.dvd_of_mod_eq_zero hdvd2
  have hh : patch_size.1 ≤ img_size.1 := Nat.le_of_dvd h0H hd1
  have hw2 : patch_size.2 ≤ img_size.2 := Nat.le_of_dvd h0W hd2
  have hgrid : img_size.1 / patch_size.1 * (img_size.2 / patch_size.2)
      = img_size.1 * img_size.2 / (patch_size.1 * patch_size.2) :=
    Nat.div_mul_div_comm hd1 hd2
  obtain ⟨y, hy, hlen, hrows⟩ := make_forward_spec model_dim num_classes img_size
    patch_size num_channels num_heads num_layers w hwf hdvd3 h0md h0nh (by omega)
    h0ph h0pw b img_size.1 img_size.2 x hx hb h0c hh hw2 hgrid
  refine ⟨⟨y, hy, hlen, ?_⟩, rfl, rfl⟩
  intro row hrow
  obtain ⟨r1, r2, r3, r4⟩ := hrows row hrow
  exact ⟨r1, r2, fun a ha => ⟨r3 a ha, r4 h2nc a ha⟩⟩

/-- Claim C1 witness: the notebook configuration with zero-initialised
weights on a zero (128, 1, 32, 32) batch produces a (128, 10) output of
probability rows. -/
theorem claim_C1_witness :
    ∃ y, (VisionTransformer.make 9 10 (32, 32) (16, 16) 1 3 3
        (zeroViTW 9 10 (16, 16) 1 3 3)).forward (zeroImage 128 1 32 32) = some y ∧
      y.length = 128 ∧
      ∀ row ∈ y, row.length = 10 ∧ row.sum = 1 ∧ ∀ a ∈ row, 0 < a ∧ a < 1 :=
  (claim_C1 9 10 (32, 32) (16, 16) 1 3 3 (zeroViTW 9 10 (16, 16) 1 3 3)
    (zeroViTW_wf 9 10 (16, 16) 1 3 3) (by decide) (by decide) (by decide)
    (by norm_num) (by norm_num) (by norm_num) (by norm_num) (by norm_num)
    (by norm_num) (by norm_num) (by norm_num) 128 (by norm_num)
    (zeroImage 128 1 32 32) (zeroImage_shape 128 1 32 32)).1

/-- Claim C2 counterexample: the MultiHeadAttention constructor called with
model_dim = 10 and num_heads = 3 (which does not divide 10) does not fail:
it builds a module with head_size = 10 // 3 = 3, so head_size * num_heads
is 9, not 10 — the invariant is not enforced at Multi-Head Attention
construction (only the VisionTransformer constructor asserts it). -/
theorem claim_C2_counterexample :
    ¬(3 ∣ 10) ∧
    (MultiHeadAttention.init 10 3 (zeroLinear 10 10)
      [zeroHeadW 3 10, zeroHeadW 3 10, zeroHeadW 3 10]).head_size * 3 ≠ 10 := by
  constructor
  · decide
  · show 10 / 3 * 3 ≠ 10
    decide

/-- Claim C2 (amended): MultiHeadAttention's own constructor performs no
divisibility check (it floor-divides); the invariant is enforced by the
VisionTransformer constructor's assert instead.  For every num_heads that
does divide model_dim, the constructed module satisfies
head_size * num_heads = model_dim, its forward maps every well-formed
(B, S, D) input to a (B, S, D) output, and the concatenation of the
num_heads head outputs along the feature axis already reconstructs feature
width D before the final D → D projection W_o. -/
theorem claim_C2 (model_dim num_heads : ℕ) (wo : LinearParams) (hw : List HeadWeights)
    (hdvd : model_dim % num_heads = 0) (h0md : 0 < model_dim) (h0nh : 0 < num_heads)
    (hwo : wo.wf model_dim model_dim) (hhw : hw.length = num_heads)
    (hhwf : ∀ h ∈ hw, h.query.wf (model_dim / num_heads) model_dim ∧
      h.key.wf (model_dim / num_heads) model_dim ∧
      h.value.wf (model_dim / num_heads) model_dim)
    (b s : ℕ) (x : Ten3) (hx : ten3Shape x b s model_dim) :
    (MultiHeadAttention.init model_dim num_heads wo hw).head_size * num_heads
      = model_dim ∧
    ten3Shape ((MultiHeadAttention.init model_dim num_heads wo hw).forward x)
      b s model_dim ∧
    (∀ it ∈ x, matShape
      (tabulate it.length (fun i =>
        (((MultiHeadAttention.init model_dim num_heads wo hw).heads.map
          (fun h => h.forwardItem it)).map (fun o => o.getD i [])).flatten))
      s model_dim) := by
  have hwfm := MultiHeadAttention.mhaInit_wf model_dim num_heads wo hw hwo hhw hhwf
    hdvd h0md h0nh
  refine ⟨hwfm.2.2.1, ?_, ?_⟩
  · exact ten3Shape_map x b s model_dim s model_dim _ hx
      (fun it hit => (MultiHeadAttention.init model_dim num_heads wo hw).mhaOut_shape
        model_dim num_heads s hwfm it (hx.2 it hit))
  · intro it hit
    exact (MultiHeadAttention.init model_dim num_heads wo hw).catted_shape model_dim
      num_heads s hwfm it (hx.2 it hit)

/-- Claim C2 witness: model_dim 9 with 3 heads gives head_size 3 with
3 * 3 = 9, and the forward pass preserves the (1, 2, 9) shape. -/
theorem claim_C2_witness :
    (MultiHeadAttention.init 9 3 (zeroLinear 9 9)
      (List.replicate 3 (zeroHeadW 3 9))).head_size * 3 = 9 ∧
    ten3Shape ((MultiHeadAttention.init 9 3 (zeroLinear 9 9)
      (List.replicate 3 (zeroHeadW 3 9))).forward (zeroTen3 1 2 9)) 1 2 9 := by
  have h := claim_C2 9 3 (zeroLinear 9 9) (List.replicate 3 (zeroHeadW 3 9)) (by decide)
    (by norm_num) (by norm_num) (zeroLinear_wf 9 9) (by simp)
    (by
      intro hd hhd
      rw [List.eq_of_mem_replicate hhd]
      exact ⟨zeroLinear_wf 3 9, zeroLinear_wf 3 9, zeroLinear_wf 3 9⟩)
    1 2 (zeroTen3 1 2 9) (zeroTen3_shape 1 2 9)
  exact ⟨h.1, h.2.1⟩

/-- Claim C8: with exact divisibility, Patch Embedding maps a well-formed
(B, C, H, W) batch to a (B, P, model_dim) output with P = (H/ph) * (W/pw);
the entry at patch index p and output feature d is the convolution of
kernel d with the non-overlapping patch at grid cell
(p / (W/pw), p % (W/pw)) — row-major traversal of the patch grid — and the
VisionTransformer num_patches formula (H * W) / (ph * pw) equals P. -/
theorem claim_C8 (p : PatchEmbedding) (b hH wW : ℕ) (x : Ten4)
    (hx : ten4Shape x b p.num_channels hH wW) (hb : 0 < b) (hc : 0 < p.num_channels)
    (hmd : 0 < p.model_dim) (h0ph : 0 < p.patch_size.1) (h0pw : 0 < p.patch_size.2)
    (h0H : 0 < hH) (h0W : 0 < wW)
    (hdvd1 : p.patch_size.1 ∣ hH) (hdvd2 : p.patch_size.2 ∣ wW) :
    ∃ y, p.forward x = some y ∧
      ten3Shape y b (hH / p.patch_size.1 * (wW / p.patch_size.2)) p.model_dim ∧
      (∀ bi pi d : ℕ, bi < b → pi < hH / p.patch_size.1 * (wW / p.patch_size.2) →
        d < p.model_dim →
        ((y.getD bi []).getD pi []).getD d 0
          = conv2dEntry p (x.getD bi []) d (pi / (wW / p.patch_size.2))
              (pi % (wW / p.patch_size.2))) ∧
      hH * wW / (p.patch_size.1 * p.patch_size.2)
        = hH / p.patch_size.1 * (wW / p.patch_size.2) := by
  have hh := Nat.le_of_dvd h0H hdvd1
  have hw := Nat.le_of_dvd h0W hdvd2
  obtain ⟨h1, h2⟩ := p.patchForward_spec b hH wW x hx hb hc hmd h0ph h0pw hh hw
  refine ⟨_, h1, h2, ?_, (Nat.div_mul_div_comm hdvd1 hdvd2).symm⟩
  intro bi pi d hbi hpi hd
  rw [getD_map x _ bi [] [] (by rw [hx.1]; exact hbi)]
  exact (p.item_spec p.num_channels hH wW (x.getD bi [])
    (hx.2 _ (getD_mem x bi [] (by rw [hx.1]; exact hbi))) hc hmd h0ph h0pw hh hw).2
    pi d hpi hd

/-- Claim C8 witness: the zero patch embedding of the notebook configuration
maps a (2, 1, 32, 32) zero batch to a (2, 4, 9) token sequence. -/
theorem claim_C8_witness :
    ∃ y, zeroPatch.forward (zeroImage 2 1 32 32) = some y ∧ ten3Shape y 2 4 9 := by
  obtain ⟨y, h1, h2, -, -⟩ := claim_C8 zeroPatch 2 32 32 (zeroImage 2 1 32 32)
    (zeroImage_shape 2 1 32 32) (by norm_num) (by decide) (by decide) (by decide)
    (by decide) (by norm_num) (by norm_num) (by decide) (by decide)
  exact ⟨y, h1, h2⟩

/-- Claim C9: Vision Transformer construction succeeds exactly when the
image dimensions are divisible by the patch dimensions and model_dim is
divisible by num_heads, and fails (the assert fires, before any forward
call and with no truncation or padding) exactly when either condition is
violated. -/
theorem claim_C9 (model_dim num_classes : ℕ) (img_size patch_size : ℕ × ℕ)
    (num_channels num_heads num_layers : ℕ) (w : ViTWeights) :
    (VisionTransformer.init model_dim num_classes img_size patch_size num_channels
        num_heads num_layers w
      = some (VisionTransformer.make model_dim num_classes img_size patch_size
          num_channels num_heads num_layers w)
      ↔ (img_size.1 % patch_size.1 = 0 ∧ img_size.2 % patch_size.2 = 0 ∧
         model_dim % num_heads = 0)) ∧
    (VisionTransformer.init model_dim num_classes img_size patch_size num_channels
        num_heads num_layers w = none
      ↔ ¬(img_size.1 % patch_size.1 = 0 ∧ img_size.2 % patch_size.2 = 0 ∧
          model_dim % num_heads = 0)) := by
  unfold VisionTransformer.init
  split_ifs with h1 h2
  · exact ⟨⟨fun _ => ⟨h1.1, h1.2, h2⟩, fun _ => rfl⟩,
      ⟨fun hc => absurd hc (by simp), fun hc => absurd ⟨h1.1, h1.2, h2⟩ hc⟩⟩
  · exact ⟨⟨fun hc => absurd hc (by simp), fun hc => absurd hc.2.2 h2⟩,
      ⟨fun _ hc => h2 hc.2.2, fun _ => rfl⟩⟩
  · exact ⟨⟨fun hc => absurd hc (by simp), fun hc => absurd ⟨hc.1, hc.2.1⟩ h1⟩,
      ⟨fun _ hc => h1 ⟨hc.1, hc.2.1⟩, fun _ => rfl⟩⟩

/-- Claim C9 witness: the notebook configuration constructs successfully,
while model_dim = 10 with 3 heads is rejected at construction. -/
theorem claim_C9_witness :
    VisionTransformer.init 9 10 (32, 32) (16, 16) 1 3 3 (zeroViTW 9 10 (16, 16) 1 3 3)
      = some (VisionTransformer.make 9 10 (32, 32) (16, 16) 1 3 3
          (zeroViTW 9 10 (16, 16) 1 3 3)) ∧
    VisionTransformer.init 10 10 (32, 32) (16, 16) 1 3 3 (zeroViTW 10 10 (16, 16) 1 3 3)
      = none :=
  ⟨(claim_C9 9 10 (32, 32) (16, 16) 1 3 3 (zeroViTW 9 10 (16, 16) 1 3 3)).1.mpr
      (by decide),
   (claim_C9 10 10 (32, 32) (16, 16) 1 3 3 (zeroViTW 10 10 (16, 16) 1 3 3)).2.mpr
      (by decide)⟩

/-- Claim C3 counterexample: with the notebook configuration (img_size
(32, 32), patch_size (16, 16)), a (1, 1, 33, 33) batch disagrees with the
configured spatial dimensions, yet the forward call does not fail: the
strided convolution silently crops the extra row and column (33 // 16 = 2
grid cells per axis, exactly as for 32), the sequence length still matches
the positional table, and a result is returned. -/
theorem claim_C3_counterexample :
    ((33 : ℕ) ≠ 32 ∧ (33 : ℕ) % 16 ≠ 0) ∧
    ((VisionTransformer.make 9 10 (32, 32) (16, 16) 1 3 3
        (zeroViTW 9 10 (16, 16) 1 3 3)).forward (zeroImage 1 1 33 33)).isSome
      = true := by
  refine ⟨by decide, ?_⟩
  obtain ⟨y, hy, -, -⟩ := make_forward_spec 9 10 (32, 32) (16, 16) 1 3 3
    (zeroViTW 9 10 (16, 16) 1 3 3) (zeroViTW_wf 9 10 (16, 16) 1 3 3) (by decide)
    (by norm_num) (by norm_num) (by norm_num) (by norm_num) (by norm_num)
    1 33 33 (zeroImage 1 1 33 33) (zeroImage_shape 1 1 33 33) (by norm_num)
    (by norm_num) (by norm_num) (by norm_num) (by decide)
  rw [hy]
  rfl

/-- Claim C3 (amended): a forward call fails (none, modelling the library's
runtime shape error) when the channel count disagrees with num_channels,
when a spatial dimension is smaller than the patch dimension, or when the
input induces a patch-grid count different from the configured num_patches
(so the positional-table broadcast fails); but an input whose spatial
dimensions disagree with the configured img_size while still flooring to
the same patch grid is silently cropped and does not fail. -/
theorem claim_C3 (model_dim num_classes : ℕ) (img_size patch_size : ℕ × ℕ)
    (num_channels num_heads num_layers : ℕ) (w : ViTWeights)
    (h0md : 0 < model_dim) (h0ph : 0 < patch_size.1) (h0pw : 0 < patch_size.2)
    (hph1 : patch_size.1 ≤ img_size.1) (hpw1 : patch_size.2 ≤ img_size.2)
    (b cC hH wW : ℕ) (x : Ten4) (hx : ten4Shape x b cC hH wW)
    (hb : 0 < b) (hc : 0 < cC) (h0H : 0 < hH) :
    (cC ≠ num_channels ∨ hH < patch_size.1 ∨ wW < patch_size.2 →
      (VisionTransformer.make model_dim num_classes img_size patch_size num_channels
        num_heads num_layers w).forward x = none) ∧
    (cC = num_channels → patch_size.1 ≤ hH → patch_size.2 ≤ wW →
      hH / patch_size.1 * (wW / patch_size.2)
        ≠ img_size.1 * img_size.2 / (patch_size.1 * patch_size.2) →
      (VisionTransformer.make model_dim num_classes img_size patch_size num_channels
        num_heads num_layers w).forward x = none) := by
  constructor
  · intro hbad
    have hnone := (VisionTransformer.make model_dim num_classes img_size patch_size
      num_channels num_heads num_layers w).patch_embedding.patchForward_none b cC hH wW x
      hx hb hc h0H hbad
    simp only [VisionTransformer.forward, hnone]
  · intro hceq hhle hwle hgrid
    subst hceq
    obtain ⟨h1, hx1⟩ := (VisionTransformer.make model_dim num_classes img_size patch_size
      cC num_heads num_layers w).patch_embedding.patchForward_spec b hH wW x hx hb hc h0md
      h0ph h0pw hhle hwle
    have hP1 : 0 < hH / patch_size.1 * (wW / patch_size.2) :=
      Nat.mul_pos (Nat.div_pos hhle h0ph) (Nat.div_pos hwle h0pw)
    have hpelen : (VisionTransformer.make model_dim num_classes img_size patch_size
        cC num_heads num_layers w).positional_encoding.pe.length
        = img_size.1 * img_size.2 / (patch_size.1 * patch_size.2) + 1 :=
      (peTable_shape _ _).1
    have hne : hH / patch_size.1 * (wW / patch_size.2) + 1
        ≠ (VisionTransformer.make model_dim num_classes img_size patch_size
          cC num_heads num_layers w).positional_encoding.pe.length := by
      rw [hpelen]
      intro hcc
      exact hgrid (Nat.succ_injective hcc)
    have hpe1 : (VisionTransformer.make model_dim num_classes img_size patch_size
        cC num_heads num_layers w).positional_encoding.pe.length ≠ 1 := by
      rw [hpelen]
      have h1np : 1 ≤ img_size.1 * img_size.2 / (patch_size.1 * patch_size.2) := by
        rw [Nat.le_div_iff_mul_le (Nat.mul_pos h0ph h0pw), one_mul]
        exact Nat.mul_le_mul hph1 hpw1
      omega
    have hnone2 := (VisionTransformer.make model_dim num_classes img_size patch_size
      cC num_heads num_layers w).positional_encoding.peForward_none b
      (hH / patch_size.1 * (wW / patch_size.2)) model_dim _ hx1 hb hP1 hne hpe1
    simp only [VisionTransformer.forward, h1, hnone2]

/-- Claim C3 witness: a wrong channel count (2 instead of 1) fails, and a
(48, 48) input, whose 3 x 3 patch grid disagrees with the configured
2 x 2 = 4 patches, also fails. -/
theorem claim_C3_witness :
    (VisionTransformer.make 9 10 (32, 32) (16, 16) 1 3 3
        (zeroViTW 9 10 (16, 16) 1 3 3)).forward (zeroImage 1 2 32 32) = none ∧
    (VisionTransformer.make 9 10 (32, 32) (16, 16) 1 3 3
        (zeroViTW 9 10 (16, 16) 1 3 3)).forward (zeroImage 1 1 48 48) = none :=
  ⟨(claim_C3 9 10 (32, 32) (16, 16) 1 3 3 (zeroViTW 9 10 (16, 16) 1 3 3)
      (by norm_num) (by norm_num) (by norm_num) (by norm_num) (by norm_num)
      1 2 32 32 (zeroImage 1 2 32 32) (zeroImage_shape 1 2 32 32)
      (by norm_num) (by norm_num) (by norm_num)).1 (Or.inl (by norm_num)),
   (claim_C3 9 10 (32, 32) (16, 16) 1 3 3 (zeroViTW 9 10 (16, 16) 1 3 3)
      (by norm_num) (by norm_num) (by norm_num) (by norm_num) (by norm_num)
      1 1 48 48 (zeroImage 1 1 48 48) (zeroImage_shape 1 1 48 48)
      (by norm_num) (by norm_num) (by norm_num)).2 rfl (by norm_num) (by norm_num)
      (by decide)⟩

/-- Claim C10 counterexample: a (1, 1, 5, 5) input, with 5 not a multiple of
the patch dimension 16, does NOT silently truncate to a (1, 0, 9) output:
the convolution rejects an input smaller than its kernel, so forward fails. -/
theorem claim_C10_counterexample :
    ((5 : ℕ) % 16 ≠ 0) ∧ zeroPatch.forward (zeroImage 1 1 5 5) = none :=
  ⟨by decide, zeroPatch.patchForward_none 1 1 5 5 (zeroImage 1 1 5 5)
    (zeroImage_shape 1 1 5 5) (by norm_num) (by norm_num) (by norm_num)
    (Or.inr (Or.inl (by decide)))⟩

/-- Claim C10 (amended): PatchEmbedding.forward requires no divisibility:
whenever both spatial dimensions are at least the patch dimensions (and the
channel count matches), it silently discards the remainder rows and columns
and returns a (B, floor(H/ph) * floor(W/pw), model_dim) output; but when a
spatial dimension is smaller than the patch dimension, the strided
convolution rejects the input instead of returning an empty output. -/
theorem claim_C10 (p : PatchEmbedding) (b hH wW : ℕ) (x : Ten4)
    (hx : ten4Shape x b p.num_channels hH wW) (hb : 0 < b) (hc : 0 < p.num_channels)
    (hmd : 0 < p.model_dim) (h0ph : 0 < p.patch_size.1) (h0pw : 0 < p.patch_size.2)
    (h0H : 0 < hH) :
    (p.patch_size.1 ≤ hH → p.patch_size.2 ≤ wW →
      ∃ y, p.forward x = some y ∧
        ten3Shape y b (hH / p.patch_size.1 * (wW / p.patch_size.2)) p.model_dim) ∧
    (hH < p.patch_size.1 ∨ wW < p.patch_size.2 → p.forward x = none) := by
  constructor
  · intro hh hw
    obtain ⟨h1, h2⟩ := p.patchForward_spec b hH wW x hx hb hc hmd h0ph h0pw hh hw
    exact ⟨_, h1, h2⟩
  · intro hbad
    exact p.patchForward_none b p.num_channels hH wW x hx hb hc h0H (Or.inr hbad)

/-- Claim C10 witness: a (1, 1, 33, 33) input is not rejected; it is cropped
to the 2 x 2 = 4 patch grid, giving a (1, 4, 9) output. -/
theorem claim_C10_witness :
    ∃ y, zeroPatch.forward (zeroImage 1 1 33 33) = some y ∧ ten3Shape y 1 4 9 := by
  obtain ⟨y, h1, h2⟩ := (claim_C10 zeroPatch 1 33 33 (zeroImage 1 1 33 33)
    (zeroImage_shape 1 1 33 33) (by norm_num) (by decide) (by decide) (by decide)
    (by decide) (by norm_num)).1 (by decide) (by decide)
  exact ⟨y, h1, h2⟩

end ViT
